import Mathlib

/-!
Shallow embedding of the CONLL-U annotation pipeline of
`lab_6_pipeline/pipeline.py`, together with proofs of the behavioural
properties stated in the repository specification.

Python strings are modelled as `List Char` (`Str`), so that every string
operation used by the source (slicing, splitting, regex runs, joining)
is an executable structural recursion that the kernel can evaluate.
Filesystem state is modelled explicitly: a directory is a listing
(a `List FsEntry` in enumeration order), a file an entry with a name and
a size.  Python exceptions are modelled with `Except`.
-/

/-- Python strings, modelled as lists of characters. -/
abbrev Str := List Char

/-- ASCII uppercase letters, the character class of the regex `[A-Z]`. -/
def charIsAsciiUpper (c : Char) : Bool :=
  0x41 ≤ c.toNat && c.toNat ≤ 0x5A

/-- Lowercase Cyrillic letters, the character class of the regex `[а-я]`
(`U+0430 .. U+044F`; note this range does not include `ё`). -/
def charIsRuLower (c : Char) : Bool :=
  0x430 ≤ c.toNat && c.toNat ≤ 0x44F

/-- Model of Python `str.isalpha` at character level, restricted to the
alphabets occurring in this pipeline: ASCII letters and Russian Cyrillic
letters (including `Ё`/`ё`). -/
def charIsAlpha (c : Char) : Bool :=
  (0x41 ≤ c.toNat && c.toNat ≤ 0x5A) || (0x61 ≤ c.toNat && c.toNat ≤ 0x7A) ||
  (0x410 ≤ c.toNat && c.toNat ≤ 0x44F) || c.toNat == 0x401 || c.toNat == 0x451

/-- Model of Python `str.isdigit` at character level (decimal digits). -/
def charIsDigit (c : Char) : Bool :=
  0x30 ≤ c.toNat && c.toNat ≤ 0x39

/-- The regex character class `\w` (word character), over the modelled
alphabets: letters, digits and the underscore. -/
def charIsWord (c : Char) : Bool :=
  charIsAlpha c || charIsDigit c || c == '_'

/-- The uppercase-to-lowercase table of Python `str.lower`, restricted to
the modelled alphabets: `A..Z`, `А..Я` and `Ё`. -/
def lowerTable : List (Char × Char) :=
  ((List.range 26).map fun i => (Char.ofNat (0x41 + i), Char.ofNat (0x61 + i))) ++
  ((List.range 32).map fun i => (Char.ofNat (0x410 + i), Char.ofNat (0x430 + i))) ++
  [('Ё', 'ё')]

/-- Character-level model of Python `str.lower`. -/
def pyToLower (c : Char) : Char :=
  (List.lookup c lowerTable).getD c

/-- Character-level model of Python `str.isupper`: the character has a
lowercase counterpart in the modelled alphabets. -/
def pyIsUpper (c : Char) : Bool :=
  (List.lookup c lowerTable).isSome

/-- Model of Python `str.isalpha`: non-empty and all characters alphabetic. -/
def pyIsAlpha (s : Str) : Bool :=
  !s.isEmpty && s.all charIsAlpha

/-- Model of Python `str.isdigit`: non-empty and all characters digits. -/
def pyIsDigit (s : Str) : Bool :=
  !s.isEmpty && s.all charIsDigit

/-- Auxiliary for `runsOf`: accumulates the current (reversed) run. -/
def runsAux (p : Char → Bool) : Str → Str → List Str
  | [], acc => if acc.isEmpty then [] else [acc.reverse]
  | c :: cs, acc =>
    if p c then runsAux p cs (c :: acc)
    else if acc.isEmpty then runsAux p cs []
    else acc.reverse :: runsAux p cs []

/-- The maximal runs of characters satisfying `p`, in order: the list of
matches of the regex `[p]+` as computed by `re.findall`. -/
def runsOf (p : Char → Bool) (s : Str) : List Str :=
  runsAux p s []

/-- The first maximal run of characters satisfying `p`: the match of
`re.search` for the regex `[p]+`. -/
def firstRun (p : Char → Bool) (s : Str) : Option Str :=
  (runsOf p s).head?

/-- Model of Python `str.split(sep)` for a one-character separator. -/
def splitOnChar (sep : Char) : Str → List Str
  | [] => [[]]
  | c :: cs =>
    let rest := splitOnChar sep cs
    if c = sep then [] :: rest
    else (c :: rest.headD []) :: rest.tail

/-- Model of Python `str.replace('. ', '.')`: left-to-right, non-overlapping
replacement of every occurrence of `". "` by `"."`. -/
def replaceDotSpace : Str → Str
  | [] => []
  | [c] => [c]
  | c1 :: c2 :: rest =>
    if c1 = '.' ∧ c2 = ' ' then '.' :: replaceDotSpace rest
    else c1 :: replaceDotSpace (c2 :: rest)

/-- Decimal rendering of a natural number (Python `str(n)` / f-strings). -/
def natStr (n : Nat) : Str :=
  Nat.toDigits 10 n

/-- Model of `int(s)` on the plain decimal strings appearing in dataset
filenames: `some` value on a non-empty all-digit string, `none`
(a `ValueError` in the source) otherwise. -/
def strToNat? (s : Str) : Option Nat :=
  if s ≠ [] ∧ s.all charIsDigit then
    some (s.foldl (fun a c => a * 10 + (c.toNat - 0x30)) 0)
  else none

/-- Model of `pathlib.PurePath.stem`: the filename with its last
dot-suffix removed. -/
def pathStem (name : Str) : Str :=
  let parts := splitOnChar '.' name
  if parts.length ≤ 1 then name
  else List.intercalate ['.'] parts.dropLast

/-- `int(file.stem.split("_")[0])`: the leading integer ID of a dataset
filename, `none` when the leading segment is not a number. -/
def leadingId (name : Str) : Option Nat :=
  strToNat? ((splitOnChar '_' (pathStem name)).headD [])

/-- A directory entry: a filename and a file size in bytes
(`Path.stat().st_size`). -/
structure FsEntry where
  name : Str
  size : Nat
deriving DecidableEq, Repr

/-- The exception kinds raised by `CorpusManager` validation and loading.
`emptyDirectory` mirrors the `EmptyDirectoryError` class declared in the
source ("Exception raised when the directory is empty"). -/
inductive ValidationError where
  | fileNotFound
  | notADirectory
  | inconsistentDataset
  | emptyDirectory
  | valueError
deriving DecidableEq, Repr

/-- `path.glob('*_meta.json')`: the metadata files of the listing. -/
def metaFiles (entries : List FsEntry) : List FsEntry :=
  entries.filter fun f => "_meta.json".toList.isSuffixOf f.name

/-- `path.glob('*_raw.txt')`: the raw-text files of the listing. -/
def rawFiles (entries : List FsEntry) : List FsEntry :=
  entries.filter fun f => "_raw.txt".toList.isSuffixOf f.name

/-- `[int(file.stem.split("_")[0]) for file in files]`: extracts every
leading ID, raising `ValueError` on the first filename whose leading
segment is not a number. -/
def extractIds : List FsEntry → Except ValidationError (List Nat)
  | [] => .ok []
  | f :: fs =>
    match leadingId f.name with
    | none => .error .valueError
    | some k =>
      match extractIds fs with
      | .error e => .error e
      | .ok ks => .ok (k :: ks)

/-- Python `sorted` on a list of integers. -/
def sortNat (l : List Nat) : List Nat :=
  List.insertionSort (· ≤ ·) l

/-- The gap check of `_validate_dataset`: some pair of consecutive entries
of `l` (i.e. of `zip(l, l[1:])`) differs by more than 1. -/
def hasGap (l : List Nat) : Bool :=
  (l.zip l.tail).any fun p => p.2 - p.1 > 1

/-- `CorpusManager._validate_dataset`, with the path state passed
explicitly: `pathExists` is `path.exists()`, `isDir` is `path.is_dir()`,
`entries` the directory listing.  Checks run in source order: existence,
directory-ness, meta/raw count equality, raw ID gaps, meta ID gaps,
raw emptiness, meta emptiness. -/
def validateDataset (pathExists isDir : Bool) (entries : List FsEntry) :
    Except ValidationError Unit :=
  if !pathExists then .error .fileNotFound
  else if !isDir then .error .notADirectory
  else
    let meta := metaFiles entries
    let raw := rawFiles entries
    if meta.length ≠ raw.length then .error .inconsistentDataset
    else
      match extractIds raw with
      | .error e => .error e
      | .ok rawIds =>
        match extractIds meta with
        | .error e => .error e
        | .ok metaIds =>
          if hasGap (sortNat rawIds) then .error .inconsistentDataset
          else if hasGap (sortNat metaIds) then .error .inconsistentDataset
          else if raw.any (fun f => f.size = 0) then .error .inconsistentDataset
          else if meta.any (fun f => f.size = 0) then .error .inconsistentDataset
          else .ok ()

/-- Insertion into the `_storage` dict: an existing key keeps its position
and gets the new value, a new key is appended (Python dict semantics). -/
def dictInsert (st : List (Nat × FsEntry)) (k : Nat) (v : FsEntry) :
    List (Nat × FsEntry) :=
  if st.any (fun p => p.1 = k) then
    st.map fun p => if p.1 = k then (k, v) else p
  else st ++ [(k, v)]

/-- Modelled from the spec: `get_article_id_from_filepath` lives in the
external `core_utils.article.article` module; per the spec the corpus
storage "keys are exactly the integer IDs found in the raw-file names",
i.e. the leading integer of the filename. -/
def getArticleIdFromFilepath (name : Str) : Option Nat :=
  leadingId name

/-- The loop of `CorpusManager._scan_dataset` over the raw files in
listing order, threading the `_storage` dict; an unparsable ID raises. -/
def scanGo : List FsEntry → List (Nat × FsEntry) →
    Except ValidationError (List (Nat × FsEntry))
  | [], st => .ok st
  | f :: fs, st =>
    match getArticleIdFromFilepath f.name with
    | some k => scanGo fs (dictInsert st k f)
    | none => .error .valueError

/-- `CorpusManager._scan_dataset`: registers each raw file under its ID,
starting from the empty storage.  The stored article is represented by
the entry it was hydrated from. -/
def scanDataset (entries : List FsEntry) :
    Except ValidationError (List (Nat × FsEntry)) :=
  scanGo (rawFiles entries) []

/-- The article IDs in listing order of the raw files (skipping, for the
statement only, unparsable names — loading those raises anyway). -/
def rawListingIds (entries : List FsEntry) : List Nat :=
  (rawFiles entries).filterMap fun f => leadingId f.name

/-- `MorphologicalAnalysisPipeline.run` visits `get_articles().values()`
in dict insertion order; this is the sequence of article IDs whose three
artifacts are written, in writing order. -/
def runArticleOrder (entries : List FsEntry) :
    Except ValidationError (List Nat) :=
  match scanDataset entries with
  | .error e => .error e
  | .ok st => .ok (st.map Prod.fst)

/-- The exception raised inside the tag converters: the `KeyError` of a
failed subscript lookup. -/
inductive PyError where
  | keyError
deriving DecidableEq, Repr

/-- `MorphologicalTokenDTO`: lemma, POS tag and feature string of a token. -/
structure MorphologicalTokenDTO where
  lemma_ : Str
  pos : Str
  tags : Str
deriving DecidableEq, Repr

/-- `ConlluToken`: surface text, 1-based position within the sentence, and
morphological parameters. -/
structure ConlluToken where
  text : Str
  position : Nat
  morph : MorphologicalTokenDTO
deriving DecidableEq, Repr

/-- `ConlluSentence`: 0-based position within the article, original text,
and the retained tokens in surface order. -/
structure ConlluSentence where
  position : Nat
  text : Str
  tokens : List ConlluToken
deriving DecidableEq, Repr

/-- The list `[position, text, lemma, pos, xpos, feats, head, deprel,
deps, misc]` joined by tabs in `ConlluToken.get_conllu_text`; the feature
column is the token's tags when requested and non-empty, else `"_"`. -/
def conlluTokenColumns (t : ConlluToken) (include_morphological_tags : Bool) :
    List Str :=
  [natStr t.position,
   t.text,
   t.morph.lemma_,
   t.morph.pos,
   "_".toList,
   if include_morphological_tags && !t.morph.tags.isEmpty then t.morph.tags
   else "_".toList,
   "0".toList,
   "root".toList,
   "_".toList,
   "_".toList]

/-- `ConlluToken.get_conllu_text`: the tab-joined CONLL-U line of a token. -/
def ConlluToken.get_conllu_text (t : ConlluToken)
    (include_morphological_tags : Bool) : Str :=
  List.intercalate ['\t'] (conlluTokenColumns t include_morphological_tags)

/-- `ConlluSentence.get_conllu_text`: two comment lines followed by one
line per token and a trailing newline. -/
def ConlluSentence.get_conllu_text (s : ConlluSentence)
    (include_morphological_tags : Bool) : Str :=
  "# sent_id = ".toList ++ natStr s.position ++ '\n' ::
  "# text = ".toList ++ s.text ++ '\n' ::
  List.intercalate ['\n']
    (s.tokens.map fun t => t.get_conllu_text include_morphological_tags) ++
  ['\n']

/-- `ConlluSentence.get_cleaned_sentence`:
`re.sub(r'\W+', '', self._text.lower())`.  Substituting every maximal run
of non-word characters by the empty string removes exactly the non-word
characters, so the result is the lowercased text filtered to word
characters. -/
def ConlluSentence.get_cleaned_sentence (s : ConlluSentence) : Str :=
  (s.text.map pyToLower).filter charIsWord

/-- The Mystem tag-mapping table loaded by `TagConverter` from
`data/mystem_tags_mapping.json` (a resource outside the source tree),
modelled abstractly: one sub-table per morphological category, each an
association list from Mystem tag codes to UD values.  The category name
constants (`"POS"`, `"Case"`, `"Number"`, `"Gender"`, `"Animacy"`,
`"Tense"`) are modelled from the spec, which shows features rendered as
`Case=Nom|Number=Sing`; the `TagConverter` base class providing them is
external to the source tree. -/
structure MystemMapping where
  posTab : List (Str × Str)
  caseTab : List (Str × Str)
  numberTab : List (Str × Str)
  genderTab : List (Str × Str)
  animacyTab : List (Str × Str)
  tenseTab : List (Str × Str)
deriving DecidableEq, Repr

/-- Association-list lookup, the subscript of a loaded mapping table. -/
def lookupTab (tbl : List (Str × Str)) (k : Str) : Option Str :=
  List.lookup k tbl

/-- `MystemTagConverter.convert_pos`: the first run of `[A-Z]+` in the raw
tag string, looked up in the POS sub-table; the empty string when there is
no match or the code is absent from the table. -/
def MystemTagConverter.convert_pos (m : MystemMapping) (tags : Str) : Str :=
  match firstRun charIsAsciiUpper tags with
  | some r =>
    match lookupTab m.posTab r with
    | some v => v
    | none => []
  | none => []

/-- The fixed per-POS category table of
`MystemTagConverter.convert_morphological_tags`: pairs of category name
and mapping sub-table, in source order; `none` for a POS outside the five
handled (the `KeyError` of `pos_specific_categories[pos]`). -/
def posSpecificCategories (m : MystemMapping) (pos : Str) :
    Option (List (Str × List (Str × Str))) :=
  if pos = "NOUN".toList then
    some [("Case".toList, m.caseTab), ("Number".toList, m.numberTab),
          ("Gender".toList, m.genderTab), ("Animacy".toList, m.animacyTab)]
  else if pos = "VERB".toList then
    some [("Tense".toList, m.tenseTab), ("Number".toList, m.numberTab),
          ("Gender".toList, m.genderTab)]
  else if pos = "ADJ".toList then
    some [("Case".toList, m.caseTab), ("Number".toList, m.numberTab),
          ("Gender".toList, m.genderTab)]
  else if pos = "NUM".toList then
    some [("Case".toList, m.caseTab), ("Number".toList, m.numberTab),
          ("Gender".toList, m.genderTab)]
  else if pos = "PRON".toList then
    some [("Case".toList, m.caseTab), ("Number".toList, m.numberTab),
          ("Gender".toList, m.genderTab), ("Animacy".toList, m.animacyTab)]
  else none

/-- The dict comprehension of `convert_morphological_tags`: for one
category sub-table, the mapped value of the last extracted tag present in
the table (later iterations of `for tag in extracted_tags` overwrite
earlier assignments to the same category key). -/
def lastMatch (tbl : List (Str × Str)) (extracted : List Str) : Option Str :=
  (extracted.filterMap fun tg => lookupTab tbl tg).getLast?

/-- Rendering of one feature: the f-string `f'{category}={value}'`. -/
def pairText (p : Str × Str) : Str :=
  p.1 ++ '=' :: p.2

/-- The sort key of Python `sorted(ud_tags.items())`: ascending category
name (the dict keys are distinct, so the value component never decides). -/
def pairLe (a b : Str × Str) : Prop :=
  a.1 ≤ b.1

instance : DecidableRel pairLe := fun a b =>
  inferInstanceAs (Decidable (a.1 ≤ b.1))

instance : IsTotal (Str × Str) pairLe :=
  ⟨fun a b => le_total a.1 b.1⟩

instance : IsTrans (Str × Str) pairLe :=
  ⟨fun _ _ _ h1 h2 => le_trans h1 h2⟩

/-- `MystemTagConverter.convert_morphological_tags`: extracts the Cyrillic
tag codes of the first alternative (parentheses removed, text before the
first `|`), consults the per-POS category list (raising `KeyError` for a
POS outside the five handled), keeps the last matching code per category,
and joins the sorted `Category=Value` renderings with `|`. -/
def MystemTagConverter.convert_morphological_tags (m : MystemMapping)
    (tags : Str) : Except PyError Str :=
  let pos := MystemTagConverter.convert_pos m tags
  let extracted := runsOf charIsRuLower
    ((splitOnChar '|' (tags.filter fun c => c ≠ '(' && c ≠ ')')).headD [])
  match posSpecificCategories m pos with
  | none => .error .keyError
  | some cats =>
    let udTags := cats.filterMap fun ct =>
      match lastMatch ct.2 extracted with
      | some v => some (ct.1, v)
      | none => none
    .ok (List.intercalate ['|'] ((List.insertionSort pairLe udTags).map pairText))

/-- The structured tag object of the fallback analyzer
(`OpencorporaTagProtocol`): an optional POS and four optional
morphological attributes. -/
structure OpencorporaTag where
  pos : Option Str
  caseAttr : Option Str
  numberAttr : Option Str
  genderAttr : Option Str
  animacyAttr : Option Str
deriving DecidableEq, Repr

/-- Modelled from the spec: the OpenCorpora tag-mapping table loaded from
`data/opencorpora_tags_mapping.json` (a resource outside the source
tree); per the spec, one sub-table per category plus a POS sub-table,
keyed so that the converter's lookups by attribute name succeed. -/
structure OpenCorporaMapping where
  posTab : List (Str × Str)
  caseTab : List (Str × Str)
  numberTab : List (Str × Str)
  genderTab : List (Str × Str)
  animacyTab : List (Str × Str)
deriving DecidableEq, Repr

/-- `self._tag_mapping.get(category, {})` of the OpenCorpora converter:
the sub-table for an attribute name, empty for an unknown name. -/
def ocCategoryTable (m : OpenCorporaMapping) (c : Str) : List (Str × Str) :=
  if c = "case".toList then m.caseTab
  else if c = "number".toList then m.numberTab
  else if c = "gender".toList then m.genderTab
  else if c = "animacy".toList then m.animacyTab
  else []

/-- `OpenCorporaTagConverter.convert_pos`:
`self._tag_mapping[self.pos][tags.POS or 'UNKN']`; a falsy POS attribute
(absent or empty) is replaced by the sentinel `'UNKN'`, and the lookup
raises `KeyError` if the code is not in the POS sub-table. -/
def OpenCorporaTagConverter.convert_pos (m : OpenCorporaMapping)
    (t : OpencorporaTag) : Except PyError Str :=
  let code :=
    match t.pos with
    | none => "UNKN".toList
    | some s => if s = [] then "UNKN".toList else s
  match lookupTab m.posTab code with
  | some v => .ok v
  | none => .error .keyError

/-- The attribute list `['case', 'number', 'gender', 'animacy']` of
`OpenCorporaTagConverter.convert_morphological_tags`, paired with the
attribute values read via `getattr`. -/
def ocParsedTags (t : OpencorporaTag) : List (Str × Option Str) :=
  [("case".toList, t.caseAttr), ("number".toList, t.numberAttr),
   ("gender".toList, t.genderAttr), ("animacy".toList, t.animacyAttr)]

/-- `OpenCorporaTagConverter.convert_morphological_tags`: each truthy
attribute value present in its category sub-table contributes
`f'{category}={mapped_value}'`, in attribute order; the entries are
joined with `|`. -/
def OpenCorporaTagConverter.convert_morphological_tags
    (m : OpenCorporaMapping) (t : OpencorporaTag) : Str :=
  List.intercalate ['|']
    ((ocParsedTags t).filterMap fun p =>
      match p.2 with
      | none => none
      | some v =>
        if v = [] then none
        else
          match lookupTab (ocCategoryTable m p.1) v with
          | some mv => some (p.1 ++ '=' :: mv)
          | none => none)

/-- One analyzer token of `Mystem().analyze(sentence)`: the surface text
and, when the `'analysis'` key is present, the candidate analyses as
`(lex, gr)` pairs.  `none` models an absent key, `some []` a present but
empty list; both fall to the no-analysis branch of `_process`. -/
structure MystemToken where
  text : Str
  analysis : Option (List (Str × Str))
deriving DecidableEq, Repr

/-- `re.compile(r'\w+|[.]').match(text)`: an anchored match succeeds iff
the text starts with a word character or a period. -/
def wordRegexMatch (s : Str) : Bool :=
  match s with
  | [] => false
  | c :: _ => charIsWord c || c == '.'

/-- The trailing-period normalisation of `_process`:
`if token['text'].endswith('. '): token['text'] = token['text'].replace('. ', '.')`. -/
def normalizeTokenText (s : Str) : Str :=
  if ". ".toList.isSuffixOf s then replaceDotSpace s else s

/-- The token-classification branch of `_process`: an alphabetic token
with a candidate analysis goes through the Mystem converter (whose
feature conversion can raise), an alphabetic token without one becomes
`X`, a digit-only token `NUM`, and anything else `PUNCT`, always with the
surface text as lemma and empty features in the last three cases. -/
def classifyToken (m : MystemMapping) (text : Str)
    (analysis : Option (List (Str × Str))) :
    Except PyError MorphologicalTokenDTO :=
  if pyIsAlpha text then
    match analysis with
    | some ((lex, gr) :: _) =>
      match MystemTagConverter.convert_morphological_tags m gr with
      | .error e => .error e
      | .ok tg => .ok ⟨lex, MystemTagConverter.convert_pos m gr, tg⟩
    | _ => .ok ⟨text, "X".toList, []⟩
  else if pyIsDigit text then .ok ⟨text, "NUM".toList, []⟩
  else .ok ⟨text, "PUNCT".toList, []⟩

/-- The loop body of `_process` for one retained analyzer token: the text
is normalised, the morphology classified, and the `ConlluToken` built at
the given 1-based sentence position. -/
def processOne (m : MystemMapping) (mt : MystemToken) (pos : Nat) :
    Except PyError ConlluToken :=
  match classifyToken m (normalizeTokenText mt.text) mt.analysis with
  | .error e => .error e
  | .ok params => .ok ⟨normalizeTokenText mt.text, pos, params⟩

/-- The token loop of `_process` over one sentence's analyzer output:
tokens failing the `\w+|[.]` match are skipped, retained tokens get the
successive positions `cnt+1, cnt+2, ...` (the `sentence_counter`). -/
def processTokens (m : MystemMapping) :
    List MystemToken → Nat → Except PyError (List ConlluToken)
  | [], _ => .ok []
  | mt :: rest, cnt =>
    if wordRegexMatch mt.text then
      match processOne m mt (cnt + 1) with
      | .error e => .error e
      | .ok ct =>
        match processTokens m rest (cnt + 1) with
        | .error e => .error e
        | .ok cts => .ok (ct :: cts)
    else processTokens m rest cnt

/-- The sentence loop of `_process`: each sentence of the segmentation is
analysed and its retained tokens are positioned starting from 1
(`sentence_counter = 0` is reset on sentence entry); sentences carry
their 0-based index. -/
def processSentences (m : MystemMapping) (analyze : Str → List MystemToken) :
    List Str → Nat → Except PyError (List ConlluSentence)
  | [], _ => .ok []
  | s :: rest, idx =>
    match processTokens m (analyze s) 0 with
    | .error e => .error e
    | .ok toks =>
      match processSentences m analyze rest (idx + 1) with
      | .error e => .error e
      | .ok out => .ok (⟨idx, s, toks⟩ :: out)

/-- `MorphologicalAnalysisPipeline._process`: the external sentence
segmenter (`split_by_sentence`) and the external Mystem analyzer are
passed as parameters; the result is the article's sentence list, or the
propagated converter exception. -/
def processText (m : MystemMapping) (split : Str → List Str)
    (analyze : Str → List MystemToken) (text : Str) :
    Except PyError (List ConlluSentence) :=
  processSentences m analyze (split text) 0

/-- A small concrete Mystem tag mapping used to evaluate the embedding on
closed inputs: a POS sub-table with the noun code `S`, and one code per
morphological category. -/
def sampleMapping : MystemMapping :=
  { posTab := [("S".toList, "NOUN".toList), ("V".toList, "VERB".toList)],
    caseTab := [("им".toList, "Nom".toList), ("вин".toList, "Acc".toList)],
    numberTab := [("ед".toList, "Sing".toList)],
    genderTab := [("муж".toList, "Masc".toList)],
    animacyTab := [("од".toList, "Anim".toList)],
    tenseTab := [("прош".toList, "Past".toList)] }

/-- A sample OpenCorpora mapping for closed evaluations of the fallback
converter. -/
def sampleOcMapping : OpenCorporaMapping :=
  { posTab := [("NOUN".toList, "NOUN".toList), ("UNKN".toList, "X".toList)],
    caseTab := [("nomn".toList, "Nom".toList)],
    numberTab := [("sing".toList, "Sing".toList)],
    genderTab := [("masc".toList, "Masc".toList)],
    animacyTab := [("anim".toList, "Anim".toList)] }

/-- A sample OpenCorpora tag object with all four attributes present. -/
def sampleOcTag : OpencorporaTag :=
  { pos := some "NOUN".toList,
    caseAttr := some "nomn".toList,
    numberAttr := some "sing".toList,
    genderAttr := some "masc".toList,
    animacyAttr := some "anim".toList }

/-- The `(category, mapped value)` pairs underlying the entries of
`OpenCorporaTagConverter.convert_morphological_tags`, in attribute order. -/
def ocFeaturePairs (m : OpenCorporaMapping) (t : OpencorporaTag) :
    List (Str × Str) :=
  (ocParsedTags t).filterMap fun p =>
    match p.2 with
    | none => none
    | some v =>
      if v = [] then none
      else (lookupTab (ocCategoryTable m p.1) v).map fun mv => (p.1, mv)

instance exceptDecEq {e a : Type} [DecidableEq e] [DecidableEq a] :
    DecidableEq (Except e a)
  | .error x, .error y =>
    if h : x = y then .isTrue (congrArg _ h)
    else .isFalse fun hh => h (Except.error.inj hh)
  | .error _, .ok _ => .isFalse Except.noConfusion
  | .ok _, .error _ => .isFalse Except.noConfusion
  | .ok x, .ok y =>
    if h : x = y then .isTrue (congrArg _ h)
    else .isFalse fun hh => h (Except.ok.inj hh)

/-- A directory listing whose raw files appear before their metadata and
in decreasing ID order; it passes validation. -/
def decreasingListing : List FsEntry :=
  [⟨"2_raw.txt".toList, 1⟩, ⟨"2_meta.json".toList, 1⟩,
   ⟨"1_raw.txt".toList, 1⟩, ⟨"1_meta.json".toList, 1⟩]

/-- A valid directory listing enumerated in increasing ID order. -/
def increasingListing : List FsEntry :=
  [⟨"1_raw.txt".toList, 1⟩, ⟨"1_meta.json".toList, 1⟩,
   ⟨"2_raw.txt".toList, 1⟩, ⟨"2_meta.json".toList, 1⟩]

/-- A listing with equal counts, gap-free ID runs on each side, and no
empty file, but disjoint raw and metadata ID sets. -/
def disjointIdListing : List FsEntry :=
  [⟨"1_raw.txt".toList, 4⟩, ⟨"2_raw.txt".toList, 4⟩,
   ⟨"5_meta.json".toList, 4⟩, ⟨"6_meta.json".toList, 4⟩]

/-- A listing whose raw IDs (and metadata IDs) are 1 and 3: a gap of 2. -/
def gappedListing : List FsEntry :=
  [⟨"1_raw.txt".toList, 5⟩, ⟨"1_meta.json".toList, 5⟩,
   ⟨"3_raw.txt".toList, 5⟩, ⟨"3_meta.json".toList, 5⟩]

/-- A fixed segmentation for closed runs of `_process`: one sentence. -/
def sampleSplit : Str → List Str :=
  fun _ => ["мама .".toList]

/-- A fixed analyzer output for closed runs of `_process`: a word with no
analysis, a whitespace token (dropped by the token filter), a period. -/
def sampleAnalyze : Str → List MystemToken :=
  fun _ => [⟨"мама".toList, none⟩, ⟨" ".toList, none⟩, ⟨".".toList, none⟩]

/-- The sentence list `_process` produces from `sampleSplit` and
`sampleAnalyze`. -/
def sampleOut : List ConlluSentence :=
  [⟨0, "мама .".toList,
    [⟨"мама".toList, 1, ⟨"мама".toList, "X".toList, []⟩⟩,
     ⟨".".toList, 2, ⟨".".toList, "PUNCT".toList, []⟩⟩]⟩]

theorem lookup_mem_of_eq_some {c l : Char} :
    ∀ {tbl : List (Char × Char)}, List.lookup c tbl = some l → (c, l) ∈ tbl := by
  intro tbl
  induction tbl with
  | nil => intro h; simp [List.lookup] at h
  | cons p ps ih =>
    intro h
    rw [List.lookup] at h
    by_cases hc : c = p.1
    · subst hc
      simp at h
      subst h
      exact List.mem_cons_self _ _
    · have hbeq : (c == p.1) = false := beq_false_of_ne hc
      rw [hbeq] at h
      exact List.mem_cons_of_mem _ (ih h)

theorem pyIsUpper_pyToLower (c : Char) : pyIsUpper (pyToLower c) = false := by
  unfold pyIsUpper pyToLower
  cases h : List.lookup c lowerTable with
  | none => simp [h]
  | some l =>
    simp only [h, Option.getD_some]
    have hmem : (c, l) ∈ lowerTable := lookup_mem_of_eq_some h
    have hall : lowerTable.all (fun p => (List.lookup p.2 lowerTable).isNone) = true := by
      decide
    have := (List.all_eq_true.mp hall) (c, l) hmem
    simp only [Option.isNone_iff_eq_none] at this
    simp [this]

/-- C9: for every sentence, the cleaned form contains only word
characters and contains no uppercase letter. -/
theorem c9_cleaned_sentence_chars (s : ConlluSentence) :
    (s.get_cleaned_sentence.all fun c => charIsWord c && !pyIsUpper c) = true := by
  rw [List.all_eq_true]
  intro c hc
  unfold ConlluSentence.get_cleaned_sentence at hc
  rw [List.mem_filter] at hc
  obtain ⟨hmap, hword⟩ := hc
  rw [List.mem_map] at hmap
  obtain ⟨c0, _, rfl⟩ := hmap
  rw [hword, pyIsUpper_pyToLower]
  rfl

theorem posSpecificCategories_nil (m : MystemMapping) :
    posSpecificCategories m [] = none := rfl

/-- C1 fails as stated: at the tag string `"FOO"` (whose extracted POS
code `FOO` is absent from the sample POS sub-table) `convert_pos` does
return the empty string, but `convert_morphological_tags` raises a
`KeyError` instead of returning without error. -/
theorem c1_counterexample :
    MystemTagConverter.convert_pos sampleMapping "FOO".toList = [] ∧
    MystemTagConverter.convert_morphological_tags sampleMapping "FOO".toList =
      .error .keyError := by
  constructor
  · decide
  · decide

/-- C1 amended: for a raw tag string whose extracted uppercase-letter POS
code is absent from the POS sub-table, `convert_pos` returns the empty
string (non-fatal), but `convert_morphological_tags` raises a `KeyError`,
because the empty POS is outside the five-entry per-POS category table. -/
theorem c1_amended_unseen_pos (m : MystemMapping) (tags r : Str)
    (hrun : firstRun charIsAsciiUpper tags = some r)
    (habs : lookupTab m.posTab r = none) :
    MystemTagConverter.convert_pos m tags = [] ∧
    MystemTagConverter.convert_morphological_tags m tags = .error .keyError := by
  have hpos : MystemTagConverter.convert_pos m tags = [] := by
    unfold MystemTagConverter.convert_pos
    rw [hrun]
    simp [habs]
  refine ⟨hpos, ?_⟩
  simp [MystemTagConverter.convert_morphological_tags, hpos,
    posSpecificCategories_nil]

theorem c1_amended_unseen_pos_witness :
    firstRun charIsAsciiUpper "FOO".toList = some "FOO".toList ∧
    lookupTab sampleMapping.posTab "FOO".toList = none ∧
    (MystemTagConverter.convert_pos sampleMapping "FOO".toList = [] ∧
     MystemTagConverter.convert_morphological_tags sampleMapping "FOO".toList =
       .error .keyError) :=
  ⟨by decide, by decide,
   c1_amended_unseen_pos sampleMapping "FOO".toList "FOO".toList
     (by decide) (by decide)⟩

theorem conlluTokenColumns_false (t : ConlluToken) :
    conlluTokenColumns t false = (conlluTokenColumns t true).set 5 "_".toList := by
  simp [conlluTokenColumns, List.set]

/-- C3: the bare CONLL-U serialization is column-for-column the tagged
one with the sixth (features) column forced to `"_"`, both at the token
level and through every line of the sentence block; in the tagged
variant the features column is the token's feature string when non-empty
and `"_"` otherwise. -/
theorem c3_bare_vs_tagged_serialization (t : ConlluToken) (s : ConlluSentence) :
    conlluTokenColumns t false = (conlluTokenColumns t true).set 5 "_".toList ∧
    (conlluTokenColumns t true).get? 5 =
      some (if t.morph.tags = [] then "_".toList else t.morph.tags) ∧
    s.get_conllu_text false =
      "# sent_id = ".toList ++ natStr s.position ++ '\n' ::
      "# text = ".toList ++ s.text ++ '\n' ::
      List.intercalate ['\n']
        (s.tokens.map fun tk =>
          List.intercalate ['\t'] ((conlluTokenColumns tk true).set 5 "_".toList)) ++
      ['\n'] := by
  refine ⟨conlluTokenColumns_false t, ?_, ?_⟩
  · by_cases h : t.morph.tags = []
    · simp [conlluTokenColumns, h]
    · simp [conlluTokenColumns, h]
  · simp only [ConlluSentence.get_conllu_text, ConlluToken.get_conllu_text,
      conlluTokenColumns_false]

theorem filterMap_fst_sublist {g : (Str × Option Str) → Option (Str × Str)}
    (hg : ∀ p q, g p = some q → q.1 = p.1) :
    ∀ l : List (Str × Option Str),
      ((l.filterMap g).map Prod.fst).Sublist (l.map Prod.fst) := by
  intro l
  induction l with
  | nil => simp
  | cons a l ih =>
    cases hga : g a with
    | none => simpa [List.filterMap_cons, hga] using ih.cons a.1
    | some q =>
      rw [List.filterMap_cons, hga]
      simpa [hg a q hga] using ih.cons₂ a.1

theorem ocConvert_eq_pairs (m : OpenCorporaMapping) (t : OpencorporaTag) :
    OpenCorporaTagConverter.convert_morphological_tags m t =
      List.intercalate ['|'] ((ocFeaturePairs m t).map pairText) := by
  unfold OpenCorporaTagConverter.convert_morphological_tags ocFeaturePairs
  rw [List.map_filterMap]
  congr 1
  apply List.filterMap_congr
  intro p _
  cases hv : p.2 with
  | none => simp
  | some v =>
    by_cases he : v = []
    · simp [he]
    · cases hl : lookupTab (ocCategoryTable m p.1) v with
      | none => simp [he, hl]
      | some mv => simp [he, hl, pairText]

/-- C4: a non-empty feature string of either converter is a `|`-joined
sequence of `Category=Value` pairs — for the Mystem converter with the
category names in ascending (lexicographic) order, for the OpenCorpora
converter with the categories a subsequence of the fixed attribute order
`case, number, gender, animacy`. -/
theorem c4_feature_string_order :
    (∀ (m : MystemMapping) (tags f : Str),
      MystemTagConverter.convert_morphological_tags m tags = .ok f →
      ∃ l : List (Str × Str),
        f = List.intercalate ['|'] (l.map pairText) ∧
        (l.map Prod.fst).Sorted (· ≤ ·)) ∧
    (∀ (m : OpenCorporaMapping) (t : OpencorporaTag),
      ∃ l : List (Str × Str),
        OpenCorporaTagConverter.convert_morphological_tags m t =
          List.intercalate ['|'] (l.map pairText) ∧
        (l.map Prod.fst).Sublist
          ["case".toList, "number".toList, "gender".toList, "animacy".toList]) := by
  constructor
  · intro m tags f h
    unfold MystemTagConverter.convert_morphological_tags at h
    simp only at h
    cases hp : posSpecificCategories m (MystemTagConverter.convert_pos m tags) with
    | none => rw [hp] at h; cases h
    | some cats =>
      rw [hp] at h
      refine ⟨List.insertionSort pairLe
        (cats.filterMap fun ct =>
          match lastMatch ct.2
              (runsOf charIsRuLower
                ((splitOnChar '|'
                  (tags.filter fun c => c ≠ '(' && c ≠ ')')).headD [])) with
          | some v => some (ct.1, v)
          | none => none), ?_, ?_⟩
      · exact (Except.ok.inj h).symm
      · have hs := List.sorted_insertionSort pairLe
          (cats.filterMap fun ct =>
            match lastMatch ct.2
                (runsOf charIsRuLower
                  ((splitOnChar '|'
                    (tags.filter fun c => c ≠ '(' && c ≠ ')')).headD [])) with
            | some v => some (ct.1, v)
            | none => none)
        exact List.Pairwise.map Prod.fst (fun a b hab => hab) hs
  · intro m t
    refine ⟨ocFeaturePairs m t, ocConvert_eq_pairs m t, ?_⟩
    have hg : ∀ (p : Str × Option Str) (q : Str × Str),
        (match p.2 with
         | none => none
         | some v =>
           if v = [] then none
           else (lookupTab (ocCategoryTable m p.1) v).map fun mv => (p.1, mv)) =
          some q → q.1 = p.1 := by
      intro p q hq
      split at hq
      · cases hq
      · rename_i v hveq
        split at hq
        · cases hq
        · cases hl : lookupTab (ocCategoryTable m p.1) v with
          | none => rw [hl] at hq; cases hq
          | some mv =>
            rw [hl] at hq
            simp at hq
            rw [← hq]
    have := filterMap_fst_sublist hg (ocParsedTags t)
    simpa [ocParsedTags] using this

theorem c4_feature_string_order_witness :
    (MystemTagConverter.convert_morphological_tags sampleMapping
       "S,муж,од=им,ед".toList =
       .ok "Animacy=Anim|Case=Nom|Gender=Masc|Number=Sing".toList) ∧
    (∃ l : List (Str × Str),
      "Animacy=Anim|Case=Nom|Gender=Masc|Number=Sing".toList =
        List.intercalate ['|'] (l.map pairText) ∧
      (l.map Prod.fst).Sorted (· ≤ ·)) ∧
    (OpenCorporaTagConverter.convert_morphological_tags sampleOcMapping
       sampleOcTag = "case=Nom|number=Sing|gender=Masc|animacy=Anim".toList) ∧
    (∃ l : List (Str × Str),
      OpenCorporaTagConverter.convert_morphological_tags sampleOcMapping
        sampleOcTag = List.intercalate ['|'] (l.map pairText) ∧
      (l.map Prod.fst).Sublist
        ["case".toList, "number".toList, "gender".toList, "animacy".toList]) :=
  ⟨by decide,
   c4_feature_string_order.1 sampleMapping "S,муж,од=им,ед".toList
     "Animacy=Anim|Case=Nom|Gender=Masc|Number=Sing".toList (by decide),
   by decide,
   c4_feature_string_order.2 sampleOcMapping sampleOcTag⟩

theorem processOne_ok {m : MystemMapping} {mt : MystemToken} {p : Nat}
    {ct : ConlluToken} (h : processOne m mt p = .ok ct) :
    ct.position = p ∧ ct.text = normalizeTokenText mt.text ∧
    classifyToken m (normalizeTokenText mt.text) mt.analysis = .ok ct.morph := by
  unfold processOne at h
  cases hc : classifyToken m (normalizeTokenText mt.text) mt.analysis with
  | error e => rw [hc] at h; cases h
  | ok params =>
    rw [hc] at h
    have := Except.ok.inj h
    subst this
    exact ⟨rfl, rfl, rfl⟩

theorem processTokens_positions (m : MystemMapping) :
    ∀ (toks : List MystemToken) (cnt : Nat) (res : List ConlluToken),
      processTokens m toks cnt = .ok res →
      res.map ConlluToken.position = List.range' (cnt + 1) res.length := by
  intro toks
  induction toks with
  | nil =>
    intro cnt res h
    unfold processTokens at h
    have := Except.ok.inj h
    subst this
    rfl
  | cons mt rest ih =>
    intro cnt res h
    unfold processTokens at h
    split at h
    · cases h1 : processOne m mt (cnt + 1) with
      | error e => rw [h1] at h; cases h
      | ok ct =>
        rw [h1] at h
        cases h2 : processTokens m rest (cnt + 1) with
        | error e => rw [h2] at h; cases h
        | ok cts =>
          rw [h2] at h
          have := Except.ok.inj h
          subst this
          have hpos := (processOne_ok h1).1
          have htail := ih (cnt + 1) cts h2
          simp only [List.map_cons, List.length_cons, List.range'_succ, hpos,
            htail]
    · exact ih cnt res h

theorem processSentences_tokens (m : MystemMapping)
    (analyze : Str → List MystemToken) :
    ∀ (ss : List Str) (idx : Nat) (out : List ConlluSentence),
      processSentences m analyze ss idx = .ok out →
      ∀ s ∈ out, processTokens m (analyze s.text) 0 = .ok s.tokens := by
  intro ss
  induction ss with
  | nil =>
    intro idx out h
    unfold processSentences at h
    have := Except.ok.inj h
    subst this
    intro s hs
    cases hs
  | cons s0 rest ih =>
    intro idx out h
    unfold processSentences at h
    cases h1 : processTokens m (analyze s0) 0 with
    | error e => rw [h1] at h; cases h
    | ok toks =>
      rw [h1] at h
      cases h2 : processSentences m analyze rest (idx + 1) with
      | error e => rw [h2] at h; cases h
      | ok out' =>
        rw [h2] at h
        have := Except.ok.inj h
        subst this
        intro s hs
        rcases List.mem_cons.mp hs with hhead | htail
        · subst hhead; exact h1
        · exact ih (idx + 1) out' h2 s htail

/-- C2: in every sentence produced by `_process`, the retained tokens
carry positions forming exactly the contiguous run `1..k` (`k` the number
of retained tokens of the sentence), restarting at 1 for each sentence. -/
theorem c2_token_positions_contiguous (m : MystemMapping)
    (split : Str → List Str) (analyze : Str → List MystemToken) (text : Str)
    (out : List ConlluSentence)
    (h : processText m split analyze text = .ok out) :
    ∀ s ∈ out, s.tokens.map ConlluToken.position =
      List.range' 1 s.tokens.length := by
  intro s hs
  have h0 := processSentences_tokens m analyze (split text) 0 out h s hs
  exact processTokens_positions m (analyze s.text) 0 s.tokens h0

theorem charIsDigit_not_alpha {c : Char} (h : charIsDigit c = true) :
    charIsAlpha c = false := by
  unfold charIsDigit at h
  unfold charIsAlpha
  simp only [Bool.and_eq_true, decide_eq_true_eq] at h
  simp only [Bool.or_eq_false_iff, Bool.and_eq_false_iff,
    decide_eq_false_iff_not, not_le, beq_eq_false_iff_ne, ne_eq]
  omega

theorem pyIsDigit_not_alpha {s : Str} (h : pyIsDigit s = true) :
    pyIsAlpha s = false := by
  unfold pyIsDigit at h
  unfold pyIsAlpha
  cases s with
  | nil => simp at h
  | cons c cs =>
    simp only [Bool.and_eq_true, List.all_cons] at h
    have hc := charIsDigit_not_alpha h.2.1
    simp [hc]

/-- C7: for every retained analyzer token of `_process` (any token shape,
any analyzer output): a digit-only token is assigned lemma = surface
text, POS `NUM` and empty features regardless of its analyses; an
alphabetic token with no candidate analysis gets lemma = surface text,
POS `X`, empty features; any other (non-alphabetic, non-digit) token
gets lemma = surface text, POS `PUNCT`, empty features. -/
theorem c7_token_classification (m : MystemMapping) (mt : MystemToken)
    (p : Nat) (ct : ConlluToken) (h : processOne m mt p = .ok ct) :
    (pyIsDigit ct.text = true →
      ct.morph = ⟨ct.text, "NUM".toList, []⟩) ∧
    (pyIsAlpha ct.text = true →
      (mt.analysis = none ∨ mt.analysis = some []) →
      ct.morph = ⟨ct.text, "X".toList, []⟩) ∧
    (pyIsAlpha ct.text = false → pyIsDigit ct.text = false →
      ct.morph = ⟨ct.text, "PUNCT".toList, []⟩) := by
  obtain ⟨-, htext, hclass⟩ := processOne_ok h
  rw [← htext] at hclass
  refine ⟨?_, ?_, ?_⟩
  · intro hdig
    have halpha := pyIsDigit_not_alpha hdig
    unfold classifyToken at hclass
    rw [halpha] at hclass
    simp only [Bool.false_eq_true, if_false, hdig, if_true] at hclass
    exact (Except.ok.inj hclass).symm
  · intro halpha han
    unfold classifyToken at hclass
    rw [halpha] at hclass
    rcases han with hn | hs
    · rw [hn] at hclass
      simp only [if_true] at hclass
      exact (Except.ok.inj hclass).symm
    · rw [hs] at hclass
      simp only [if_true] at hclass
      exact (Except.ok.inj hclass).symm
  · intro halpha hdig
    unfold classifyToken at hclass
    rw [halpha, hdig] at hclass
    simp only [Bool.false_eq_true, if_false] at hclass
    exact (Except.ok.inj hclass).symm

theorem c7_token_classification_witness :
    (processOne sampleMapping
       ⟨"2024".toList, some [("два".toList, "NUM=им".toList)]⟩ 1 =
       .ok ⟨"2024".toList, 1, ⟨"2024".toList, "NUM".toList, []⟩⟩) ∧
    pyIsDigit "2024".toList = true ∧
    (⟨"2024".toList, 1, ⟨"2024".toList, "NUM".toList, []⟩⟩ :
      ConlluToken).morph = ⟨"2024".toList, "NUM".toList, []⟩ :=
  ⟨by decide, by decide,
   (c7_token_classification sampleMapping
     ⟨"2024".toList, some [("два".toList, "NUM=им".toList)]⟩ 1
     ⟨"2024".toList, 1, ⟨"2024".toList, "NUM".toList, []⟩⟩ (by decide)).1
     (by decide)⟩

theorem c2_token_positions_contiguous_witness :
    (processText sampleMapping sampleSplit sampleAnalyze "мама .".toList =
      .ok sampleOut) ∧
    (sampleOut.headD ⟨0, [], []⟩) ∈ sampleOut ∧
    ((sampleOut.headD ⟨0, [], []⟩).tokens.map ConlluToken.position =
      List.range' 1 2) :=
  ⟨by decide, by decide,
   c2_token_positions_contiguous sampleMapping sampleSplit sampleAnalyze
     "мама .".toList sampleOut (by decide) (sampleOut.headD ⟨0, [], []⟩)
     (by decide)⟩

theorem extractIds_error :
    ∀ (fs : List FsEntry) (e : ValidationError),
      extractIds fs = .error e → e = .valueError := by
  intro fs
  induction fs with
  | nil => intro e h; cases h
  | cons f fs ih =>
    intro e h
    unfold extractIds at h
    cases hp : leadingId f.name with
    | none => rw [hp] at h; exact (Except.error.inj h).symm
    | some k =>
      rw [hp] at h
      cases hr : extractIds fs with
      | error e' =>
        rw [hr] at h
        rw [← Except.error.inj h]
        exact ih e' hr
      | ok ks => rw [hr] at h; cases h

/-- The declared `EmptyDirectoryError` is never raised by
`_validate_dataset`, on any path state and any directory listing. -/
theorem emptyDirectoryError_never_raised :
    ∀ (ex dir : Bool) (es : List FsEntry),
      validateDataset ex dir es ≠ Except.error ValidationError.emptyDirectory := by
  intro ex dir es h
  simp only [validateDataset] at h
  split at h
  · simp at h
  split at h
  · simp at h
  split at h
  · simp at h
  cases hr : extractIds (rawFiles es) with
  | error e =>
    rw [hr] at h
    have h1 := Except.error.inj h
    have h2 := extractIds_error _ _ hr
    rw [h1] at h2
    cases h2
  | ok rawIds =>
    rw [hr] at h
    cases hm : extractIds (metaFiles es) with
    | error e =>
      rw [hm] at h
      have h1 := Except.error.inj h
      have h2 := extractIds_error _ _ hm
      rw [h1] at h2
      cases h2
    | ok metaIds =>
      rw [hm] at h
      repeat split at h
      all_goals try simp_all
      all_goals split_ifs at h <;> simp_all

/-- C5 diverges from the code: an existing, empty directory passes
`_validate_dataset` — with zero files of each kind no check fires, and
the `EmptyDirectoryError` declared for this situation is never raised. -/
theorem c5_empty_directory_accepted :
    validateDataset true true [] = Except.ok () := by decide

theorem extractIds_ok :
    ∀ (fs : List FsEntry), (∀ f ∈ fs, (leadingId f.name).isSome = true) →
      extractIds fs = .ok (fs.filterMap fun f => leadingId f.name) := by
  intro fs
  induction fs with
  | nil => intro _; rfl
  | cons f fs ih =>
    intro h
    have hf := h f (List.mem_cons_self f fs)
    obtain ⟨k, hk⟩ := Option.isSome_iff_exists.mp hf
    unfold extractIds
    rw [hk, ih fun g hg => h g (List.mem_cons_of_mem f hg)]
    simp [List.filterMap_cons, hk]

/-- C6: on an existing directory whose dataset filenames carry numeric
leading IDs, validation raises `InconsistentDatasetError` exactly when
the meta and raw counts differ, or the sorted raw IDs or the sorted meta
IDs contain a consecutive pair differing by more than 1, or some raw or
meta file is empty. -/
theorem c6_inconsistent_iff (entries : List FsEntry)
    (hr : ∀ f ∈ rawFiles entries, (leadingId f.name).isSome = true)
    (hm : ∀ f ∈ metaFiles entries, (leadingId f.name).isSome = true) :
    validateDataset true true entries =
        .error ValidationError.inconsistentDataset ↔
      ((metaFiles entries).length ≠ (rawFiles entries).length ∨
       hasGap (sortNat ((rawFiles entries).filterMap fun f =>
         leadingId f.name)) = true ∨
       hasGap (sortNat ((metaFiles entries).filterMap fun f =>
         leadingId f.name)) = true ∨
       (rawFiles entries).any (fun f => f.size = 0) = true ∨
       (metaFiles entries).any (fun f => f.size = 0) = true) := by
  have her := extractIds_ok (rawFiles entries) hr
  have hem := extractIds_ok (metaFiles entries) hm
  simp only [validateDataset, Bool.not_true, Bool.false_eq_true, if_false,
    her, hem]
  by_cases h1 : (metaFiles entries).length ≠ (rawFiles entries).length
  · simp [h1]
  · by_cases h2 : hasGap (sortNat ((rawFiles entries).filterMap fun f =>
        leadingId f.name)) = true
    · simp [h1, h2]
    · by_cases h3 : hasGap (sortNat ((metaFiles entries).filterMap fun f =>
          leadingId f.name)) = true
      · simp [h1, h2, h3]
      · by_cases h4 : (rawFiles entries).any (fun f => f.size = 0) = true
        · simp [h1, h2, h3, h4]
        · by_cases h5 : (metaFiles entries).any (fun f => f.size = 0) = true
          · simp [h1, h2, h3, h4, h5]
          · simp [h1, h2, h3, h4, h5]

theorem c6_inconsistent_iff_witness :
    validateDataset true true gappedListing =
      .error ValidationError.inconsistentDataset :=
  (c6_inconsistent_iff gappedListing (by decide) (by decide)).mpr
    (Or.inr (Or.inl (by decide)))

theorem scanGo_keys :
    ∀ (raws : List FsEntry) (acc st : List (Nat × FsEntry)),
      scanGo raws acc = .ok st →
      (acc.map Prod.fst ++ raws.filterMap fun f => leadingId f.name).Nodup →
      st.map Prod.fst =
        acc.map Prod.fst ++ raws.filterMap fun f => leadingId f.name := by
  intro raws
  induction raws with
  | nil =>
    intro acc st h _
    unfold scanGo at h
    rw [← Except.ok.inj h]
    simp
  | cons f fs ih =>
    intro acc st h hnd
    unfold scanGo at h
    cases hp : getArticleIdFromFilepath f.name with
    | none => rw [hp] at h; cases h
    | some k =>
      simp only [hp] at h
      have hk : leadingId f.name = some k := hp
      simp only [List.filterMap_cons, hk] at hnd ⊢
      have hnotin : k ∉ acc.map Prod.fst := by
        intro hmem
        rcases (List.nodup_append.mp hnd) with ⟨-, -, hdisj⟩
        exact hdisj hmem (List.mem_cons_self k _)
      have hins : dictInsert acc k f = acc ++ [(k, f)] := by
        unfold dictInsert
        have hany : acc.any (fun p => p.1 = k) = false := by
          rw [List.any_eq_false]
          intro p hp' hpk
          exact hnotin (List.mem_map.mpr ⟨p, hp', of_decide_eq_true hpk⟩)
        simp [hany]
      rw [hins] at h
      have hnd' : ((acc ++ [(k, f)]).map Prod.fst ++
          fs.filterMap fun g => leadingId g.name).Nodup := by
        simpa [List.append_assoc] using hnd
      have := ih (acc ++ [(k, f)]) st h hnd'
      simpa [List.append_assoc] using this

/-- C8 fails as stated: on `decreasingListing` — a corpus that passes
validation — `run` writes the artifacts of article 2 before those of
article 1, because the corpus dict is populated in directory-listing
order, not in ID order. -/
theorem c8_counterexample :
    validateDataset true true decreasingListing = .ok () ∧
    runArticleOrder decreasingListing = .ok [2, 1] ∧
    ¬ List.Chain' (· < ·) [2, 1] := by
  refine ⟨by decide, by decide, ?_⟩
  simp [List.chain'_cons, List.chain'_singleton]

/-- C8 amended: `run` writes per-article artifacts in directory-listing
order of the raw files; when the listing enumerates the raw files in
strictly increasing ID order, the artifacts are written in strictly
increasing article-ID order. -/
theorem c8_amended_listing_order (entries : List FsEntry) (order : List Nat)
    (h : runArticleOrder entries = .ok order)
    (hinc : List.Chain' (· < ·) (rawListingIds entries)) :
    order = rawListingIds entries ∧ List.Chain' (· < ·) order := by
  unfold runArticleOrder at h
  cases hs : scanDataset entries with
  | error e => rw [hs] at h; cases h
  | ok st =>
    rw [hs] at h
    have horder : st.map Prod.fst = order := Except.ok.inj h
    have hnodup : (rawListingIds entries).Nodup := by
      have hp : List.Pairwise (· < ·) (rawListingIds entries) :=
        List.chain'_iff_pairwise.mp hinc
      exact hp.imp fun hlt => Nat.ne_of_lt hlt
    unfold scanDataset at hs
    have hkeys := scanGo_keys (rawFiles entries) [] st hs
      (by simpa [rawListingIds] using hnodup)
    rw [← horder]
    rw [hkeys]
    simp only [List.map_nil, List.nil_append]
    exact ⟨rfl, by simpa [rawListingIds] using hinc⟩

theorem c8_amended_listing_order_witness :
    runArticleOrder increasingListing = .ok [1, 2] ∧
    List.Chain' (· < ·) (rawListingIds increasingListing) ∧
    ([1, 2] = rawListingIds increasingListing ∧
     List.Chain' (· < ·) [1, 2]) :=
  ⟨by decide,
   by
     have h : rawListingIds increasingListing = [1, 2] := by decide
     rw [h]
     simp [List.chain'_cons, List.chain'_singleton],
   c8_amended_listing_order increasingListing [1, 2] (by decide)
     (by
       have h : rawListingIds increasingListing = [1, 2] := by decide
       rw [h]
       simp [List.chain'_cons, List.chain'_singleton])⟩

/-- C10: validation never compares the raw-file ID set against the
metadata-file ID set: `disjointIdListing` has raw IDs 1,2 and meta IDs
5,6, yet passes validation, and the corpus storage is keyed by the raw
IDs alone. -/
theorem c10_ids_not_cross_checked :
    validateDataset true true disjointIdListing = .ok () ∧
    scanDataset disjointIdListing =
      .ok [(1, ⟨"1_raw.txt".toList, 4⟩), (2, ⟨"2_raw.txt".toList, 4⟩)] ∧
    ((rawFiles disjointIdListing).filterMap fun f => leadingId f.name) =
      [1, 2] ∧
    ((metaFiles disjointIdListing).filterMap fun f => leadingId f.name) =
      [5, 6] := by
  refine ⟨by decide, by decide, by decide, by decide⟩
